import Mathlib

/-!
# Verification of the conversational-agent orchestration core

Shallow embedding of the repository's orchestration core:
`module/memory.py` (session memory), `module/decision.py` (decision
engine response recovery), `module/mcp_tool_wrappers.py` (tool process
client) and `agent.py` (per-turn orchestrator), together with theorems
settling the frozen claims about them.

Python values flowing through the code (JSON values, fact values,
scheme attributes) are modelled by the inductive type `JVal`; Python
dictionaries by insertion-ordered association lists with first-match
lookup and in-place update, which reproduces CPython `dict` semantics
for duplicate-free key lists.
-/

namespace Capstone

/-- JSON-like Python value universe: the values that flow through the
agent (facts, scheme attributes, tool inputs/outputs, parsed LLM
responses). `null` models Python `None`. -/
inductive JVal where
  | null : JVal
  | str : String → JVal
  | int : Int → JVal
  | bool : Bool → JVal
  | arr : List JVal → JVal
  | obj : List (String × JVal) → JVal

/-- Association-list lookup, first match wins (Python `dict.get` for
duplicate-free lists, which is the only way Python builds them). -/
def alGet {α : Type} : List (String × α) → String → Option α
  | [], _ => none
  | (k', v) :: rest, k => if k' = k then some v else alGet rest k

/-- Association-list write: replaces the value at the first occurrence
of the key in place, else appends — Python `d[k] = v` semantics
(existing keys keep their position, new keys go to the end). -/
def alSet {α : Type} : List (String × α) → String → α → List (String × α)
  | [], k, v => [(k, v)]
  | (k', v') :: rest, k, v =>
      if k' = k then (k, v) :: rest else (k', v') :: alSet rest k v

/-- A Python dict of JSON-like values. -/
abbrev Dict := List (String × JVal)

/-- Python `d1.update(d2)`: write every pair of `d2`, in order, into `d1`. -/
def Dict.update (d1 d2 : Dict) : Dict :=
  d2.foldl (fun acc kv => alSet acc kv.1 kv.2) d1

@[simp] theorem alGet_nil {α : Type} (k : String) : alGet ([] : List (String × α)) k = none := rfl

theorem alGet_alSet {α : Type} (d : List (String × α)) (k k' : String) (v : α) :
    alGet (alSet d k v) k' = if k = k' then some v else alGet d k' := by
  induction d with
  | nil =>
    by_cases h : k = k' <;> simp [alSet, alGet, h]
  | cons kv rest ih =>
    obtain ⟨k0, v0⟩ := kv
    by_cases h0 : k0 = k
    · subst h0
      by_cases h : k0 = k' <;> simp [alSet, alGet, h]
    · simp only [alSet, if_neg h0]
      by_cases h : k0 = k'
      · subst h
        have hne : ¬ k = k0 := fun hh => h0 hh.symm
        simp [alGet, hne]
      · simp [alGet, h, ih]

theorem alGet_eq_none_of_not_mem {α : Type} (d : List (String × α)) (k : String)
    (h : k ∉ d.map Prod.fst) : alGet d k = none := by
  induction d with
  | nil => rfl
  | cons kv rest ih =>
    obtain ⟨k0, v0⟩ := kv
    simp only [List.map_cons, List.mem_cons, not_or] at h
    have hne : ¬ k0 = k := fun hh => h.1 hh.symm
    simp only [alGet, if_neg hne]
    exact ih h.2

theorem alGet_append {α : Type} (d1 d2 : List (String × α)) (k : String) :
    alGet (d1 ++ d2) k = ((alGet d1 k).orElse fun _ => alGet d2 k) := by
  induction d1 with
  | nil => simp [alGet]
  | cons kv rest ih =>
    obtain ⟨k0, v0⟩ := kv
    by_cases h : k0 = k <;> simp [alGet, h, ih]

theorem alSet_eq_append_of_get_none {α : Type} (d : List (String × α)) (k : String) (v : α)
    (h : alGet d k = none) : alSet d k v = d ++ [(k, v)] := by
  induction d with
  | nil => rfl
  | cons kv rest ih =>
    obtain ⟨k0, v0⟩ := kv
    simp only [alGet] at h
    by_cases h0 : k0 = k
    · simp [h0] at h
    · simp only [alSet, if_neg h0, List.cons_append]
      rw [ih (by simpa [alGet, h0] using h)]

theorem alGet_update (d1 d2 : Dict) (hd2 : (d2.map Prod.fst).Nodup) (k : String) :
    alGet (Dict.update d1 d2) k =
      match alGet d2 k with
      | some v => some v
      | none => alGet d1 k := by
  induction d2 generalizing d1 with
  | nil => simp [Dict.update, alGet]
  | cons kv rest ih =>
    obtain ⟨k0, v0⟩ := kv
    simp only [List.map_cons, List.nodup_cons] at hd2
    have hrest := ih (alSet d1 k0 v0) hd2.2
    simp only [Dict.update, List.foldl_cons] at hrest ⊢
    rw [hrest]
    by_cases h : k0 = k
    · subst h
      have hnot : alGet rest k0 = none :=
        alGet_eq_none_of_not_mem rest k0 hd2.1
      simp [hnot, alGet, alGet_alSet]
    · simp only [alGet, if_neg h]
      cases hr : alGet rest k with
      | some v => simp
      | none => simp [alGet_alSet, h]

theorem update_eq_append_of_fresh (d acc : Dict)
    (hd : (d.map Prod.fst).Nodup)
    (hacc : ∀ k ∈ d.map Prod.fst, alGet acc k = none) :
    Dict.update acc d = acc ++ d := by
  induction d generalizing acc with
  | nil => simp [Dict.update]
  | cons kv rest ih =>
    obtain ⟨k0, v0⟩ := kv
    simp only [List.map_cons, List.nodup_cons] at hd
    simp only [Dict.update, List.foldl_cons] at ih ⊢
    have hset : alSet acc k0 v0 = acc ++ [(k0, v0)] :=
      alSet_eq_append_of_get_none acc k0 v0 (hacc k0 (by simp))
    have hfresh : ∀ k ∈ rest.map Prod.fst, alGet (acc ++ [(k0, v0)]) k = none := by
      intro k hk
      rw [alGet_append]
      have h1 : alGet acc k = none := hacc k (by simp [hk])
      have h2 : k0 ≠ k := fun hh => hd.1 (hh ▸ hk)
      simp [h1, alGet, h2]
    rw [hset, ih (acc ++ [(k0, v0)]) hd.2 hfresh]
    simp

/-- With duplicate-free keys, writing a dict's pairs into an empty dict
reproduces the dict (so the first `store_scheme_data` on a fresh id
stores exactly its argument). -/
theorem update_nil_eq (d : Dict) (hd : (d.map Prod.fst).Nodup) :
    Dict.update [] d = d := by
  simpa using update_eq_append_of_fresh d [] hd (fun k _ => rfl)

/-! ## Python string and truthiness primitives -/

/-- Strip ASCII/unicode whitespace from both ends of a character list
(Python `str.strip()`). -/
def trimBothL (l : List Char) : List Char :=
  ((l.dropWhile Char.isWhitespace).reverse.dropWhile Char.isWhitespace).reverse

/-- Python `s.strip()`. -/
def pyStrip (s : String) : String := ⟨trimBothL s.data⟩

/-- Python `s.lower()` (ASCII case folding). -/
def pyLower (s : String) : String := ⟨s.data.map Char.toLower⟩

/-- Python `s.strip().lower()`, the normalization used by
`check_for_repeated_question`. -/
def pyStripLower (s : String) : String := pyLower (pyStrip s)

/-- Python truthiness of an `Optional[str]`: `None` and `""` are falsy. -/
def strTruthy : Option String → Bool
  | none => false
  | some s => !(s == "")

/-- Python truthiness of a `JVal`. -/
def JVal.truthy : JVal → Bool
  | .null => false
  | .str s => !(s == "")
  | .int n => !(n == 0)
  | .bool b => b
  | .arr l => !l.isEmpty
  | .obj d => !d.isEmpty

/-! ## Session memory (`module/memory.py`, class `Memory`)

A turn of the conversation log is a Python dict with mandatory keys
`role`/`content` and optional keys `tool_name`, `tool_input`,
`tool_output`, `final_answer`; an `Option` field value of `none` means
the key is absent from the dict.  For `tool_output`, whose stored value
may itself be Python `None`, key-present-with-`None` is `some .null`. -/

structure Turn where
  role : String
  content : String
  tool_name : Option String := none
  tool_input : Option Dict := none
  tool_output : Option JVal := none
  final_answer : Option String := none

structure Memory where
  conversation_history : List Turn := []
  facts : Dict := []
  schemes_data : List (String × Dict) := []
  current_scheme_id : Option String := none

/-- The fresh memory built by `Memory.__init__` (the session id carries
no orchestration state and is not modelled). -/
def Memory.init : Memory := {}

/-- `Memory.add_conversation_turn`: the `tool_name`/`tool_input`/
`tool_output` keys are written only under `if tool_name:` (truthy), and
`final_answer` only under `if final_answer:`; `tool_input` defaults to
`{}` when the argument is `None`. -/
def Memory.add_conversation_turn (m : Memory) (role content : String)
    (tool_name : Option String := none) (tool_input : Option Dict := none)
    (tool_output : Option JVal := none) (final_answer : Option String := none) :
    Memory :=
  let turn : Turn :=
    { role := role
      content := content
      tool_name := if strTruthy tool_name then tool_name else none
      tool_input := if strTruthy tool_name then some (tool_input.getD []) else none
      tool_output := if strTruthy tool_name then some (tool_output.getD .null) else none
      final_answer := if strTruthy final_answer then final_answer else none }
  { m with conversation_history := m.conversation_history ++ [turn] }

/-- `Memory.store_fact`: `self.facts[key] = value`. -/
def Memory.store_fact (m : Memory) (key : String) (value : JVal) : Memory :=
  { m with facts := alSet m.facts key value }

/-- `Memory.retrieve_fact`: `self.facts.get(key)`.  A fact stored with
value `None` is returned as Python `None`, indistinguishable at this
boundary from an absent key, hence the collapse of `some .null`. -/
def Memory.retrieve_fact (m : Memory) (key : String) : Option JVal :=
  match alGet m.facts key with
  | some .null => none
  | v => v

/-- `Memory.store_scheme_data`: reset the record to `{}` when the id is
absent or `overwrite` is set, then shallow-`update` it with `data`. -/
def Memory.store_scheme_data (m : Memory) (scheme_id : String) (data : Dict)
    (overwrite : Bool := false) : Memory :=
  let base : Dict :=
    match alGet m.schemes_data scheme_id with
    | some d => if overwrite then [] else d
    | none => []
  { m with schemes_data := alSet m.schemes_data scheme_id (Dict.update base data) }

/-- `Memory.retrieve_scheme_data`: `self.schemes_data.get(scheme_id)`. -/
def Memory.retrieve_scheme_data (m : Memory) (scheme_id : String) : Option Dict :=
  alGet m.schemes_data scheme_id

/-- `Memory.set_current_scheme`: succeeds iff the id is a stored scheme
record or a `{id}_details` / `{id}_summary` fact exists (`is not None`);
on success writes both the pointer and the mirrored
`current_scheme_id` fact, on failure changes nothing. -/
def Memory.set_current_scheme (m : Memory) (scheme_id : String) : Memory × Bool :=
  if (alGet m.schemes_data scheme_id).isSome
      || (m.retrieve_fact (scheme_id ++ "_details")).isSome
      || (m.retrieve_fact (scheme_id ++ "_summary")).isSome then
    ({ m.store_fact "current_scheme_id" (.str scheme_id) with
        current_scheme_id := some scheme_id }, true)
  else (m, false)

/-- `Memory.get_current_scheme_id`: the in-memory pointer when truthy,
else the mirrored fact. -/
def Memory.get_current_scheme_id (m : Memory) : Option JVal :=
  match m.current_scheme_id with
  | some s => if s ≠ "" then some (.str s) else m.retrieve_fact "current_scheme_id"
  | none => m.retrieve_fact "current_scheme_id"

/-- `Memory.get_current_scheme_data`: look up the scheme record under
the current id when that id is truthy.  A non-string current id (only
reachable by storing a non-string `current_scheme_id` fact) can never
key the string-keyed scheme table, so the lookup misses. -/
def Memory.get_current_scheme_data (m : Memory) : Option Dict :=
  match m.get_current_scheme_id with
  | some (.str s) => if s ≠ "" then alGet m.schemes_data s else none
  | _ => none

/-- `Memory.update_current_scheme_data`: merge-store into the current
scheme when one is set.  (When the current id is a truthy non-string
fact value, CPython would create a scheme record under that non-string
key; such a record is unreachable by every string lookup, so the state
is modelled unchanged.) -/
def Memory.update_current_scheme_data (m : Memory) (data : Dict) : Memory × Bool :=
  match m.get_current_scheme_id with
  | some (.str s) => if s ≠ "" then (m.store_scheme_data s data, true) else (m, false)
  | some v => (m, v.truthy)
  | none => (m, false)

/-- `Memory.clear`: reset all four substructures. -/
def Memory.clear (_m : Memory) : Memory := {}

/-- The forward scan of `check_for_repeated_question` (lines 240-248):
from the turn after a matched user turn, return the next agent turn's
`final_answer`; abort on an intervening user turn. -/
def forwardScan : List Turn → Option String
  | [] => none
  | t :: rest =>
      if t.role == "agent" && t.final_answer.isSome then t.final_answer
      else if t.role == "user" then none
      else forwardScan rest

/-- The backward scan of `check_for_repeated_question` (lines 231-248):
walk the history newest-to-oldest (`revRest`), carrying the turns
already passed (`after`, oldest-first — the suffix of the history after
the current position) and the count of user turns checked. -/
def checkAux (normQ : String) (lookback : Nat) :
    List Turn → List Turn → Nat → Option String
  | [], _, _ => none
  | t :: revRest, after, checked =>
      if t.role == "user" then
        if checked + 1 > lookback then none
        else if pyStripLower t.content == normQ then
          match forwardScan after with
          | some a => some a
          | none => checkAux normQ lookback revRest (t :: after) (checked + 1)
        else checkAux normQ lookback revRest (t :: after) (checked + 1)
      else checkAux normQ lookback revRest (t :: after) checked

/-- `Memory.check_for_repeated_question`. -/
def Memory.check_for_repeated_question (m : Memory) (user_query : String)
    (history_lookback : Nat := 5) : Option String :=
  checkAux (pyStripLower user_query) history_lookback
    m.conversation_history.reverse [] 0

/-! ## C1: repeated-question lookup -/

/-- If every turn of a list has a `final_answer` other than the present
empty string, the forward scan cannot produce the empty string. -/
theorem forwardScan_ne_empty (l : List Turn)
    (h : ∀ t ∈ l, t.final_answer ≠ some "") : forwardScan l ≠ some "" := by
  induction l with
  | nil => simp [forwardScan]
  | cons t rest ih =>
    simp only [forwardScan]
    by_cases h1 : (t.role == "agent" && t.final_answer.isSome) = true
    · simp only [h1, if_true]
      exact h t (by simp)
    · simp only [h1, if_false]
      by_cases h2 : (t.role == "user") = true
      · simp [h2]
      · simp only [h2, if_false]
        exact ih (fun t' ht' => h t' (by simp [ht']))

theorem checkAux_ne_empty (normQ : String) (lookback : Nat)
    (rev after : List Turn) (checked : Nat)
    (hrev : ∀ t ∈ rev, t.final_answer ≠ some "")
    (hafter : ∀ t ∈ after, t.final_answer ≠ some "") :
    checkAux normQ lookback rev after checked ≠ some "" := by
  induction rev generalizing after checked with
  | nil => simp [checkAux]
  | cons t rest ih =>
    have hrest : ∀ t' ∈ rest, t'.final_answer ≠ some "" :=
      fun t' ht' => hrev t' (by simp [ht'])
    have hafter' : ∀ t' ∈ t :: after, t'.final_answer ≠ some "" := by
      intro t' ht'
      rcases List.mem_cons.mp ht' with h | h
      · exact h ▸ hrev t (by simp)
      · exact hafter t' h
    cases h1 : (t.role == "user") with
    | false => simpa [checkAux, h1] using ih (t :: after) checked hrest hafter'
    | true =>
      by_cases h2 : checked + 1 > lookback
      · simp [checkAux, h1, h2]
      · cases h3 : (pyStripLower t.content == normQ) with
        | false =>
          simpa [checkAux, h1, h2, h3] using
            ih (t :: after) (checked + 1) hrest hafter'
        | true =>
          cases hfs : forwardScan after with
          | none =>
            simpa [checkAux, h1, h2, h3, hfs] using
              ih (t :: after) (checked + 1) hrest hafter'
          | some a =>
            have hne : a ≠ "" := by
              intro hc
              exact forwardScan_ne_empty after hafter (hc ▸ hfs)
            simp [checkAux, h1, h2, h3, hfs, hne]

/-- C1.  A history ending `[user "Q", agent answering "A", user "R",
agent turn]` (with "R" normalizing differently from "Q") yields `"A"`
at the default lookback of 5 and nothing at lookback 0; and the most
recent qualifying match always wins: a trailing matched user turn
directly followed by an answering agent turn is returned whatever came
before it. -/
theorem check_repeated_scenario
    (m : Memory) (p : List Turn) (q a r c1 : String) (last : Turn)
    (hm : m.conversation_history =
      p ++ [{ role := "user", content := q },
            { role := "agent", content := c1, final_answer := some a },
            { role := "user", content := r }, last])
    (hlast : last.role = "agent")
    (hne : pyStripLower r ≠ pyStripLower q) :
    m.check_for_repeated_question q = some a
      ∧ m.check_for_repeated_question q 0 = none
      ∧ ∀ (m' : Memory) (p' : List Turn) (q' a' c' : String),
          m'.conversation_history =
            p' ++ [{ role := "user", content := q' },
                   { role := "agent", content := c', final_answer := some a' }] →
          m'.check_for_repeated_question q' = some a' := by
  have hne' : (pyStripLower r == pyStripLower q) = false :=
    beq_eq_false_iff_ne.mpr hne
  have hlast' : (last.role == "user") = false := by
    rw [hlast]; decide
  refine ⟨?_, ?_, ?_⟩
  · simp [Memory.check_for_repeated_question, hm, checkAux, forwardScan,
      hlast', hne']
  · simp [Memory.check_for_repeated_question, hm, checkAux, hlast']
  · intro m' p' q' a' c' hm'
    simp [Memory.check_for_repeated_question, hm', checkAux, forwardScan]

/-- Witness for C1 at a concrete four-turn history. -/
theorem check_repeated_scenario_witness :
    (Memory.check_for_repeated_question
      { conversation_history :=
          [{ role := "user", content := "Q" },
           { role := "agent", content := "t", final_answer := some "A" },
           { role := "user", content := "R" },
           { role := "agent", content := "t2" }] } "Q") = some "A" :=
  (check_repeated_scenario
    { conversation_history :=
        [{ role := "user", content := "Q" },
         { role := "agent", content := "t", final_answer := some "A" },
         { role := "user", content := "R" },
         { role := "agent", content := "t2" }] }
    [] "Q" "A" "R" "t" { role := "agent", content := "t2" }
    rfl rfl (by decide)).1

/-! ## C10: truthiness gating in `add_conversation_turn` -/

/-- C10.  `add_conversation_turn` writes the tool keys only for a
truthy `tool_name` and `final_answer` only when truthy (so an
empty-string answer is dropped); every appended turn therefore carries
`final_answer ≠ some ""`, and on such histories
`check_for_repeated_question` can never return the empty string. -/
theorem add_turn_truthiness
    (m : Memory) (role content : String) (tn : Option String)
    (ti : Option Dict) (to_ : Option JVal) (fa : Option String) :
    (strTruthy tn = false →
      (m.add_conversation_turn role content tn ti to_ fa).conversation_history =
        m.conversation_history ++
          [{ role := role, content := content,
             final_answer := if strTruthy fa then fa else none }])
    ∧ (strTruthy fa = false →
        ∀ t ∈ (m.add_conversation_turn role content tn ti to_ fa).conversation_history,
          t ∈ m.conversation_history ∨ t.final_answer = none)
    ∧ (∀ t ∈ (m.add_conversation_turn role content tn ti to_ fa).conversation_history,
        t ∈ m.conversation_history ∨ t.final_answer ≠ some "")
    ∧ (∀ m' : Memory,
        (∀ t ∈ m'.conversation_history, t.final_answer ≠ some "") →
        ∀ q n, m'.check_for_repeated_question q n ≠ some "") := by
  refine ⟨?_, ?_, ?_, ?_⟩
  · intro h
    simp [Memory.add_conversation_turn, h]
  · intro h t ht
    simp only [Memory.add_conversation_turn, List.mem_append, List.mem_singleton] at ht
    rcases ht with ht | ht
    · exact Or.inl ht
    · right
      rw [ht]
      simp [h]
  · intro t ht
    simp only [Memory.add_conversation_turn, List.mem_append, List.mem_singleton] at ht
    rcases ht with ht | ht
    · exact Or.inl ht
    · right
      rw [ht]
      cases h : strTruthy fa with
      | false => simp [h]
      | true =>
        cases fa with
        | none => simp [strTruthy] at h
        | some s =>
          have hs : s ≠ "" := by simpa [strTruthy] using h
          simp [h, hs]
  · intro m' hm' q n
    exact checkAux_ne_empty _ _ _ [] 0
      (fun t ht => hm' t (by simpa using ht)) (by simp)

/-- Witness for C10 at concrete arguments: an agent turn appended with
`final_answer=""` stores no `final_answer`, and the resulting one-turn
history can never answer with the empty string. -/
theorem add_turn_truthiness_witness :
    (Memory.init.add_conversation_turn "agent" "x" none none none
        (some "")).conversation_history =
      [{ role := "agent", content := "x" }] ∧
    ∀ q n, (Memory.init.add_conversation_turn "agent" "x" none none none
        (some "")).check_for_repeated_question q n ≠ some "" := by
  have h := add_turn_truthiness Memory.init "agent" "x" none none none (some "")
  refine ⟨by simpa using h.1 rfl, fun q n => h.2.2.2 _ ?_ q n⟩
  intro t ht
  rcases (h.2.2.1 t ht) with h' | h'
  · simp [Memory.init] at h'
  · exact h'

/-! ## C7: `set_current_scheme` success and failure -/

/-- C7.  `set_current_scheme(id)` fails (returns `False`, state fully
unchanged) when `id` keys no scheme record and neither existence fact
resolves; it succeeds (returns `True`, writing pointer and mirrored
fact, touching nothing else) when any of the three resolves.  The
operation is a total function: it cannot raise. -/
theorem set_current_scheme_spec (m : Memory) (scheme_id : String) :
    ((alGet m.schemes_data scheme_id = none ∧
      m.retrieve_fact (scheme_id ++ "_details") = none ∧
      m.retrieve_fact (scheme_id ++ "_summary") = none) →
      m.set_current_scheme scheme_id = (m, false))
    ∧ (((alGet m.schemes_data scheme_id).isSome
        ∨ (m.retrieve_fact (scheme_id ++ "_details")).isSome
        ∨ (m.retrieve_fact (scheme_id ++ "_summary")).isSome) →
      (m.set_current_scheme scheme_id).2 = true
        ∧ (m.set_current_scheme scheme_id).1.current_scheme_id = some scheme_id
        ∧ (m.set_current_scheme scheme_id).1.facts =
            alSet m.facts "current_scheme_id" (.str scheme_id)
        ∧ (m.set_current_scheme scheme_id).1.conversation_history =
            m.conversation_history
        ∧ (m.set_current_scheme scheme_id).1.schemes_data = m.schemes_data) := by
  constructor
  · rintro ⟨h1, h2, h3⟩
    simp [Memory.set_current_scheme, h1, h2, h3]
  · intro h
    have hc : ((alGet m.schemes_data scheme_id).isSome
        || (m.retrieve_fact (scheme_id ++ "_details")).isSome
        || (m.retrieve_fact (scheme_id ++ "_summary")).isSome) = true := by
      rcases h with h | h | h <;> simp [h]
    simp [Memory.set_current_scheme, hc, Memory.store_fact]

/-- Witness for C7: on a fresh memory `set_current_scheme "s1"` fails
and changes nothing; after storing a `"s1_summary"` fact it succeeds
and writes pointer plus mirrored fact. -/
theorem set_current_scheme_spec_witness :
    Memory.init.set_current_scheme "s1" = (Memory.init, false)
      ∧ ((Memory.init.store_fact "s1_summary" (.str "S")).set_current_scheme
            "s1").2 = true
      ∧ ((Memory.init.store_fact "s1_summary" (.str "S")).set_current_scheme
            "s1").1.current_scheme_id = some "s1" := by
  have h1 := (set_current_scheme_spec Memory.init "s1").1
    ⟨rfl, rfl, rfl⟩
  have h2 := (set_current_scheme_spec
      (Memory.init.store_fact "s1_summary" (.str "S")) "s1").2
    (Or.inr (Or.inr (by simp [Memory.store_fact, Memory.init,
      Memory.retrieve_fact, alSet, alGet])))
  exact ⟨h1, h2.1, h2.2.1⟩

/-! ## C8: merge-by-default scheme storage -/

/-- C8.  From a state where `id` has no scheme record, storing `d1`
then `d2` with the default `overwrite=False` leaves exactly `d1`
shallow-updated by `d2`, whose lookups are the key-wise union with
`d2` winning on shared keys. -/
theorem store_scheme_merge (m : Memory) (scheme_id : String) (d1 d2 : Dict)
    (habs : alGet m.schemes_data scheme_id = none)
    (h1 : (d1.map Prod.fst).Nodup) (h2 : (d2.map Prod.fst).Nodup) :
    ((m.store_scheme_data scheme_id d1).store_scheme_data scheme_id
        d2).retrieve_scheme_data scheme_id = some (Dict.update d1 d2)
    ∧ ∀ k, alGet (Dict.update d1 d2) k =
        match alGet d2 k with
        | some v => some v
        | none => alGet d1 k := by
  have e1 : m.store_scheme_data scheme_id d1 =
      { m with schemes_data := alSet m.schemes_data scheme_id d1 } := by
    simp [Memory.store_scheme_data, habs, update_nil_eq d1 h1]
  constructor
  · rw [e1]
    simp [Memory.store_scheme_data, Memory.retrieve_scheme_data, alGet_alSet]
  · intro k
    exact alGet_update d1 d2 h2 k

/-- Witness for C8: `{a:1, b:2}` then `{b:7, c:3}` retrieves
`{a:1, b:7, c:3}`. -/
theorem store_scheme_merge_witness :
    ((Memory.init.store_scheme_data "s1"
        [("a", .int 1), ("b", .int 2)]).store_scheme_data "s1"
        [("b", .int 7), ("c", .int 3)]).retrieve_scheme_data "s1" =
      some [("a", .int 1), ("b", .int 7), ("c", .int 3)]
      ∧ alGet (Dict.update [("a", JVal.int 1), ("b", JVal.int 2)]
          [("b", JVal.int 7), ("c", JVal.int 3)]) "b" = some (.int 7) := by
  have h := store_scheme_merge Memory.init "s1"
    [("a", .int 1), ("b", .int 2)] [("b", .int 7), ("c", .int 3)]
    rfl (by simp) (by simp)
  refine ⟨?_, ?_⟩
  · have hu : Dict.update [("a", JVal.int 1), ("b", JVal.int 2)]
        [("b", JVal.int 7), ("c", JVal.int 3)] =
        [("a", .int 1), ("b", .int 7), ("c", .int 3)] := rfl
    rw [← hu]
    exact h.1
  · rw [h.2 "b"]
    rfl

/-! ## C4: the current-scheme pointer / mirrored-fact invariant -/

/-- The consistency property claimed for the pointer and its mirrored
fact: equal when the pointer is set, both absent otherwise. -/
def pointerFactConsistent (m : Memory) : Prop :=
  match m.current_scheme_id with
  | some i => m.retrieve_fact "current_scheme_id" = some (.str i)
  | none => m.retrieve_fact "current_scheme_id" = none

/-- C4 (amended).  `get_current_scheme_id` returns the in-memory
pointer when it is set (truthy), else the mirrored fact; the fresh
memory, every successful `set_current_scheme`, and `clear` keep pointer
and fact consistent.  (`store_fact` on key `"current_scheme_id"` does
not: see the counterexample.) -/
theorem scheme_pointer_mirror :
    pointerFactConsistent Memory.init
    ∧ (∀ (m : Memory) (scheme_id : String),
        (m.set_current_scheme scheme_id).2 = true →
        pointerFactConsistent (m.set_current_scheme scheme_id).1)
    ∧ (∀ m : Memory, pointerFactConsistent m.clear)
    ∧ (∀ (m : Memory) (s : String), m.current_scheme_id = some s → s ≠ "" →
        m.get_current_scheme_id = some (.str s))
    ∧ (∀ m : Memory, m.current_scheme_id = none →
        m.get_current_scheme_id = m.retrieve_fact "current_scheme_id") := by
  refine ⟨?_, ?_, ?_, ?_, ?_⟩
  · simp [pointerFactConsistent, Memory.init, Memory.retrieve_fact]
  · intro m scheme_id h
    cases hcb : ((alGet m.schemes_data scheme_id).isSome
        || (m.retrieve_fact (scheme_id ++ "_details")).isSome
        || (m.retrieve_fact (scheme_id ++ "_summary")).isSome) with
    | true =>
      unfold Memory.set_current_scheme
      rw [hcb]
      simp [pointerFactConsistent, Memory.store_fact, Memory.retrieve_fact,
        alGet_alSet]
    | false =>
      exfalso
      unfold Memory.set_current_scheme at h
      rw [hcb] at h
      simp at h
  · intro m
    simp [pointerFactConsistent, Memory.clear, Memory.retrieve_fact]
  · intro m s hm hs
    simp [Memory.get_current_scheme_id, hm, hs]
  · intro m hm
    simp [Memory.get_current_scheme_id, hm]

/-- The state reached by storing scheme `"s1"`, setting it current
(pointer and fact both `"s1"`), then calling the public
`store_fact("current_scheme_id", "s2")`. -/
def storeFactBreaksMirror : Memory :=
  (((Memory.init.store_scheme_data "s1"
      [("a", .str "x")]).set_current_scheme "s1").1.store_fact
      "current_scheme_id" (.str "s2"))

/-- Counterexample for C4 as stated: `store_fact` is a public operation
that writes the mirrored fact without touching the pointer.  After
establishing a consistent state for scheme `"s1"`, a direct
`store_fact("current_scheme_id", "s2")` leaves the pointer at `"s1"`
and the fact at `"s2"`: the two lookup paths disagree and the claimed
invariant fails. -/
theorem scheme_pointer_mirror_cex :
    storeFactBreaksMirror.current_scheme_id = some "s1"
    ∧ storeFactBreaksMirror.retrieve_fact "current_scheme_id" = some (.str "s2")
    ∧ storeFactBreaksMirror.get_current_scheme_id = some (.str "s1")
    ∧ ¬ pointerFactConsistent storeFactBreaksMirror := by
  refine ⟨rfl, rfl, rfl, ?_⟩
  intro h
  have h' : storeFactBreaksMirror.retrieve_fact "current_scheme_id" =
      some (.str "s1") := h
  have h1 : (some (JVal.str "s2") : Option JVal) = some (.str "s1") :=
    Eq.trans (by rfl) h'
  injection h1 with h2
  injection h2 with h3
  exact absurd h3 (by decide)

/-! ## Context assembly (`get_relevant_context_for_decision`)

Python `str()` / `repr()` of the modelled value universe. String
escaping corner cases inside `repr` of nested strings are not exercised
by any theorem below. -/

mutual

def pyRepr : JVal → String
  | .null => "None"
  | .str s => "'" ++ s ++ "'"
  | .int n => toString n
  | .bool b => cond b "True" "False"
  | .arr xs => "[" ++ pyReprList xs ++ "]"
  | .obj fs => "\x7b" ++ pyReprFields fs ++ "\x7d"

def pyReprList : List JVal → String
  | [] => ""
  | [x] => pyRepr x
  | x :: xs => pyRepr x ++ ", " ++ pyReprList xs

def pyReprFields : List (String × JVal) → String
  | [] => ""
  | [(k, v)] => "'" ++ k ++ "': " ++ pyRepr v
  | (k, v) :: fs => "'" ++ k ++ "': " ++ pyRepr v ++ ", " ++ pyReprFields fs

end

/-- Python `str(value)`: the identity on strings, `repr`-like rendering
on everything else. -/
def pyStr : JVal → String
  | .str s => s
  | v => pyRepr v

/-- Is `sub` a contiguous substring (Python `sub in s`)? -/
def containsSub (sub : List Char) : List Char → Bool
  | [] => sub.isEmpty
  | c :: rest => sub.isPrefixOf (c :: rest) || containsSub sub rest

def strContains (s sub : String) : Bool := containsSub sub.data s.data

/-- The priority filter of lines 295: keys whose lowercase form
contains "scheme", "building", "project", "material" or "current". -/
def isPriorityFactKey (k : String) : Bool :=
  strContains (pyLower k) "scheme" || strContains (pyLower k) "building"
    || strContains (pyLower k) "project" || strContains (pyLower k) "material"
    || strContains (pyLower k) "current"

/-- `sorted_fact_keys = priority_keys + other_keys` (lines 295-298),
keys in dict insertion order inside each class. -/
def sortedFactKeys (facts : Dict) : List String :=
  let keys := facts.map Prod.fst
  keys.filter isPriorityFactKey ++ keys.filter (fun k => !isPriorityFactKey k)

/-- `_add_to_context` (lines 266-275): append `text` only when the
result stays strictly below the budget; the running `current_length`
is the accumulated string's length. -/
def addCtx (maxLen : Nat) (acc text : String) : String :=
  if text.isEmpty then acc
  else if acc.length + text.length < maxLen then acc ++ text else acc

/-- One `  - k: v` line of the current-scheme block (line 284). -/
def schemeLine (kv : String × JVal) : String :=
  "  - " ++ kv.1 ++ ": " ++ pyStr kv.2 ++ "\n"

/-- Block 1 (lines 277-287): the current-scheme block. -/
def schemePhase (maxLen : Nat) (m : Memory) (acc : String) : String :=
  match m.get_current_scheme_id with
  | none => acc
  | some cid =>
    if cid.truthy then
      match m.get_current_scheme_data with
      | some d =>
        if d.isEmpty then
          addCtx maxLen acc ("Current Active Scheme ID: " ++ pyStr cid ++
            " (Details may be in facts or forthcoming).\n\n")
        else
          addCtx maxLen acc ("Current Active Scheme (ID: " ++ pyStr cid ++
            "):\n" ++ String.join (d.map schemeLine) ++ "\n")
      | none =>
        addCtx maxLen acc ("Current Active Scheme ID: " ++ pyStr cid ++
          " (Details may be in facts or forthcoming).\n\n")
    else acc

def factsHeader : String := "Key Information from Memory (Facts):\n"

/-- One `- k: v` fact line (line 303). -/
def factLine (facts : Dict) (k : String) : String :=
  "- " ++ k ++ ": " ++ pyStr ((alGet facts k).getD .null) ++ "\n"

/-- `projected_len = len(header) if not temp else 0` (lines 305, 339):
the block header's length counts only while the block is still empty. -/
def hdrLen (temp : String) (n : Nat) : Nat := if temp.isEmpty then n else 0

/-- The fact-accumulation loop (lines 300-312).  The Python guard
`current_length + projected_len < max_context_str_length * 0.75`
is the exact rational comparison `4 * (...) < 3 * maxLen`. -/
def buildFactsStr (maxLen curLen : Nat) (facts : Dict) :
    List String → String → String
  | [], temp => temp
  | k :: ks, temp =>
      if 4 * (curLen + (hdrLen temp factsHeader.length + temp.length +
          (factLine facts k).length)) < 3 * maxLen then
        buildFactsStr maxLen curLen facts ks (temp ++ factLine facts k)
      else temp

/-- Lines 314-315: attach the accumulated fact lines under the header
when non-empty. -/
def factsAttach (maxLen : Nat) (acc temp : String) : String :=
  if temp.isEmpty then acc else addCtx maxLen acc (factsHeader ++ temp ++ "\n")

/-- Block 2 (lines 290-315): the prioritized-facts block. -/
def factsPhase (maxLen : Nat) (m : Memory) (acc : String) : String :=
  if m.facts.isEmpty then acc
  else factsAttach maxLen acc
    (buildFactsStr maxLen acc.length m.facts (sortedFactKeys m.facts) "")

def historyHeader : String := "Recent Conversation Snippets (User/Agent):\n"

/-- One history snippet (lines 329-337). -/
def turnSnippet (t : Turn) : String :=
  let rolePfx := if t.role == "user" then "User: " else "Agent: "
  let content :=
    if t.role == "agent" && strTruthy t.final_answer then t.final_answer.getD ""
    else if t.role == "agent" && strTruthy t.tool_name then
      t.content ++ " (Used tool: " ++ t.tool_name.getD "" ++ ")"
    else t.content
  rolePfx ++ content ++ "\n"

/-- The history loop (lines 320-347): newest turn first, snippets
prepended, at most 10 turns, stop at the first over-budget turn. -/
def buildHistoryStr (maxLen curLen : Nat) :
    List Turn → Nat → String → String
  | [], _, temp => temp
  | t :: rest, included, temp =>
      if included ≥ 10 then temp
      else if curLen + (hdrLen temp historyHeader.length +
          (turnSnippet t).length + temp.length) < maxLen then
        buildHistoryStr maxLen curLen rest (included + 1) (turnSnippet t ++ temp)
      else temp

/-- Lines 349-350: attach the accumulated history snippets under the
header when non-empty. -/
def historyAttach (maxLen : Nat) (acc temp : String) : String :=
  if temp.isEmpty then acc else addCtx maxLen acc (historyHeader ++ temp)

/-- Block 3 (lines 318-350): the recent-history block. -/
def historyPhase (maxLen : Nat) (m : Memory) (acc : String) : String :=
  historyAttach maxLen acc
    (buildHistoryStr maxLen acc.length m.conversation_history.reverse 0 "")

/-- `Memory.get_relevant_context_for_decision` (lines 252-354): the
three blocks assembled in order over the shared budget. -/
def Memory.get_relevant_context_for_decision (m : Memory)
    (max_context_str_length : Nat := 4000) : String :=
  historyPhase max_context_str_length m
    (factsPhase max_context_str_length m
      (schemePhase max_context_str_length m ""))

/-! ## C9: the context string is budget-bounded and block-structured -/

theorem addCtx_le (N : Nat) (acc t : String) (h : acc.length ≤ N) :
    (addCtx N acc t).length ≤ N := by
  unfold addCtx
  split
  · exact h
  · split
    · next hlt => rw [String.length_append]; omega
    · exact h

theorem schemePhase_le (N : Nat) (m : Memory) (acc : String)
    (h : acc.length ≤ N) : (schemePhase N m acc).length ≤ N := by
  unfold schemePhase
  split
  · exact h
  · split
    · split
      · split
        · exact addCtx_le N acc _ h
        · exact addCtx_le N acc _ h
      · exact addCtx_le N acc _ h
    · exact h

theorem factsPhase_le (N : Nat) (m : Memory) (acc : String)
    (h : acc.length ≤ N) : (factsPhase N m acc).length ≤ N := by
  unfold factsPhase factsAttach
  split
  · exact h
  · split
    · exact h
    · exact addCtx_le N acc _ h

theorem historyPhase_le (N : Nat) (m : Memory) (acc : String)
    (h : acc.length ≤ N) : (historyPhase N m acc).length ≤ N := by
  unfold historyPhase historyAttach
  split
  · exact h
  · exact addCtx_le N acc _ h

theorem string_foldl_append (l : List String) (s : String) :
    l.foldl (fun r t => r ++ t) s = s ++ l.foldl (fun r t => r ++ t) "" := by
  induction l generalizing s with
  | nil => simp [String.append_empty]
  | cons x xs ih =>
    simp only [List.foldl_cons]
    rw [ih (s ++ x), ih ("" ++ x)]
    rw [show ("" ++ x : String) = x from rfl, String.append_assoc]

theorem join_cons (s : String) (l : List String) :
    String.join (s :: l) = s ++ String.join l := by
  simp only [String.join, List.foldl_cons]
  rw [string_foldl_append l ("" ++ s), show ("" ++ s : String) = s from rfl]

theorem join_append (l1 l2 : List String) :
    String.join (l1 ++ l2) = String.join l1 ++ String.join l2 := by
  induction l1 with
  | nil =>
    rw [List.nil_append, show String.join [] = "" from rfl]
    rfl
  | cons s rest ih =>
    rw [List.cons_append, join_cons, join_cons, ih, String.append_assoc]

theorem buildFactsStr_no_split (N c : Nat) (facts : Dict)
    (ks : List String) (temp : String) :
    ∃ ks', ks' <+: ks ∧
      buildFactsStr N c facts ks temp =
        temp ++ String.join (ks'.map (factLine facts)) := by
  induction ks generalizing temp with
  | nil =>
    exact ⟨[], List.prefix_rfl,
      by simp [buildFactsStr, String.join, String.append_empty]⟩
  | cons k rest ih =>
    simp only [buildFactsStr]
    split
    · obtain ⟨ks', hpre, heq⟩ := ih (temp ++ factLine facts k)
      refine ⟨k :: ks', List.cons_prefix_cons.mpr ⟨rfl, hpre⟩, ?_⟩
      rw [heq, List.map_cons, join_cons, String.append_assoc]
    · exact ⟨[], List.nil_prefix,
        by simp [String.join, String.append_empty]⟩

theorem buildHistoryStr_whole_turns (N c : Nat) (rev : List Turn)
    (i : Nat) (temp : String) :
    ∃ n, n ≤ rev.length ∧
      buildHistoryStr N c rev i temp =
        String.join ((rev.take n).reverse.map turnSnippet) ++ temp := by
  induction rev generalizing i temp with
  | nil =>
    exact ⟨0, by simp, by simp [buildHistoryStr, String.join]⟩
  | cons t rest ih =>
    simp only [buildHistoryStr]
    split
    · exact ⟨0, by simp, by simp [String.join]⟩
    · split
      · obtain ⟨n, hn, heq⟩ := ih (i + 1) (turnSnippet t ++ temp)
        refine ⟨n + 1, by simpa using Nat.succ_le_succ hn, ?_⟩
        rw [heq]
        rw [List.take_succ_cons, List.reverse_cons, List.map_append, join_append]
        simp only [List.map_cons, List.map_nil]
        rw [join_cons, show String.join [] = "" from rfl, String.append_empty,
          String.append_assoc]
      · exact ⟨0, by simp, by simp [String.join]⟩

/-- C9.  For every memory state and budget `N` the assembled context
string has length at most `N` (hence a fortiori at most `N` plus the
length of whichever block stopped assembly); the string is built by the
three block phases in the order current-scheme, facts, history; the
facts block is a concatenation of whole fact lines for a prefix of the
prioritized key order (no entry is split); and the history block is a
concatenation of whole snippets of the most recent turns. -/
theorem context_assembly_bounded (m : Memory) (N : Nat) :
    (m.get_relevant_context_for_decision N).length ≤ N
    ∧ m.get_relevant_context_for_decision N =
        historyPhase N m (factsPhase N m (schemePhase N m ""))
    ∧ (∀ (c : Nat) (facts : Dict) (ks : List String) (temp : String),
        ∃ ks', ks' <+: ks ∧
          buildFactsStr N c facts ks temp =
            temp ++ String.join (ks'.map (factLine facts)))
    ∧ (∀ (c : Nat) (rev : List Turn) (i : Nat) (temp : String),
        ∃ n, n ≤ rev.length ∧
          buildHistoryStr N c rev i temp =
            String.join ((rev.take n).reverse.map turnSnippet) ++ temp) := by
  refine ⟨?_, rfl, fun c facts ks temp => buildFactsStr_no_split N c facts ks temp,
    fun c rev i temp => buildHistoryStr_whole_turns N c rev i temp⟩
  exact historyPhase_le N m _ (factsPhase_le N m _ (schemePhase_le N m _ (by simp)))

/-! ## Decision engine (`module/decision.py`)

`execute_plan_with_memory` is embedded with its two external effects as
oracle parameters: the inference call (a text, or the exception it
raised) and Python's `json.loads` on the recovered text (a parsed
object, or the `JSONDecodeError` it raised).  The prompt assembly
(lines 136-166) only feeds the inference call and cannot influence the
returned plan beyond the oracle's answer, so it is not modelled. -/

/-- `"```json"`, the fence opener tested by `startswith` (line 187). -/
def fenceOpener : List Char := ['`', '`', '`', 'j', 's', 'o', 'n']

/-- `"```"`, the fence closer tested by `endswith` (line 189). -/
def fenceCloser : List Char := ['`', '`', '`']

/-- Line 190: strip a trailing fence closer (with `strip()`), if present. -/
def stripCloser (u : List Char) : List Char :=
  if fenceCloser.isSuffixOf u then trimBothL (u.take (u.length - 3)) else u

/-- Lines 187-190: if the text starts with the fence opener, slice off
`[6:]` (the source drops 6 of the opener's 7 characters; the leftover
`n` is later discarded by the brace cut), strip, and drop a trailing
closer. -/
def stripFence (t : List Char) : List Char :=
  if fenceOpener.isPrefixOf t then stripCloser (trimBothL (t.drop 6)) else t

/-- Lines 194-197: when the text does not start with `{`, discard
everything before the first `{` (no change when there is none). -/
def cutToFirstBrace (l : List Char) : List Char :=
  if l.head? = some '{' then l
  else
    match l.dropWhile (fun c => !(c == '{')) with
    | [] => l
    | rest => rest

/-- Lines 199-202: when the text does not end with `}`, discard
everything after the last `}` (no change when there is none). -/
def cutToLastBrace (l : List Char) : List Char :=
  if l.getLast? = some '}' then l
  else
    match l.reverse.dropWhile (fun c => !(c == '}')) with
    | [] => l
    | rest => rest.reverse

/-- Lines 184-202: the full response-recovery preprocessing. -/
def recoverResponseText (s : String) : String :=
  ⟨cutToLastBrace (cutToFirstBrace (stripFence (trimBothL s.data)))⟩

/-- The decision tuple `(thought, tool_name, tool_input, speak,
memory_actions)`. -/
structure DPlan where
  thought : JVal
  tool_name : JVal
  tool_input : JVal
  speak : JVal
  memory_actions : JVal

/-- Lines 205-209: field extraction with the source's defaults
(`dict.get(key, default)`). -/
def planOfJDict (d : List (String × JVal)) : DPlan :=
  { thought := (alGet d "thought").getD (.str "No thought process provided.")
    tool_name := (alGet d "tool_name").getD (.str "final_answer")
    tool_input := (alGet d "tool_input").getD (.obj [])
    speak := (alGet d "speak").getD (.str "I'm not sure how to respond to that.")
    memory_actions := (alGet d "memory_actions").getD (.arr []) }

/-- The degenerate plan of line 134 (engine not initialized). -/
def uninitializedPlan : DPlan :=
  { thought := .str "LLM not initialized."
    tool_name := .str "final_answer"
    tool_input := .obj []
    speak := .str "Sorry, I'm having trouble thinking right now."
    memory_actions := .arr [] }

/-- The degenerate plan of line 215 (`json.JSONDecodeError`), carrying
the recovered text in `thought`. -/
def parseFailPlan (recovered : String) : DPlan :=
  { thought := .str ("Error: Could not parse LLM response. Raw: " ++ recovered)
    tool_name := .str "final_answer"
    tool_input := .obj []
    speak := .str "I'm sorry, I had trouble understanding the response format."
    memory_actions := .arr [] }

/-- The degenerate plan of line 221 (any other exception `e`). -/
def exceptionPlan (e : String) : DPlan :=
  { thought := .str ("Error: An unexpected error occurred: " ++ e)
    tool_name := .str "final_answer"
    tool_input := .obj []
    speak := .str "I'm sorry, an unexpected error occurred."
    memory_actions := .arr [] }

/-- `Decision.execute_plan_with_memory` (lines 118-221).  `llmInit`
models `self.llm` being non-`None`; `callResult` the inference call
(`.error e` when it raised `e`); `jsonLoads` Python's `json.loads`
(`.error` for a `JSONDecodeError`).  Total by construction: every
path returns a plan, none re-raises. -/
def execute_plan_with_memory (llmInit : Bool)
    (callResult : Except String String)
    (jsonLoads : String → Except String (List (String × JVal))) : DPlan :=
  if !llmInit then uninitializedPlan
  else
    match callResult with
    | .error e => exceptionPlan e
    | .ok text =>
      match jsonLoads (recoverResponseText text) with
      | .error _ => parseFailPlan (recoverResponseText text)
      | .ok d => planOfJDict d

/-! ## C6: the decision engine's failure taxonomy -/

/-- C6.  Uninitialized engine: the fixed apology plan, indifferent to
(hence without attempting) the external call; an exception from the
call: the exception plan; a recovered text `json.loads` rejects: the
parse-failure plan carrying the recovered text in `thought`; a parsed
object: the extracted plan.  These four cases are exhaustive, and each
returns a plan — the embedding is a total function, so no exception
can propagate. -/
theorem decision_failure_taxonomy :
    (∀ (cr : Except String String)
        (js : String → Except String (List (String × JVal))),
      execute_plan_with_memory false cr js = uninitializedPlan)
    ∧ (∀ (e : String) (js : String → Except String (List (String × JVal))),
        execute_plan_with_memory true (.error e) js = exceptionPlan e)
    ∧ (∀ (t : String) (js : String → Except String (List (String × JVal)))
        (e : String), js (recoverResponseText t) = .error e →
        execute_plan_with_memory true (.ok t) js =
          parseFailPlan (recoverResponseText t))
    ∧ (∀ (t : String) (js : String → Except String (List (String × JVal)))
        (d : List (String × JVal)), js (recoverResponseText t) = .ok d →
        execute_plan_with_memory true (.ok t) js = planOfJDict d) := by
  refine ⟨fun cr js => rfl, fun e js => rfl, ?_, ?_⟩
  · intro t js e h
    simp [execute_plan_with_memory, h]
  · intro t js d h
    simp [execute_plan_with_memory, h]

/-- Witness for C6 at concrete oracles. -/
theorem decision_failure_taxonomy_witness :
    execute_plan_with_memory true (.ok "not json")
        (fun _ => .error "Expecting value") =
      parseFailPlan (recoverResponseText "not json")
    ∧ execute_plan_with_memory true (.ok "{}") (fun _ => .ok []) =
        planOfJDict [] :=
  ⟨decision_failure_taxonomy.2.2.1 "not json" (fun _ => .error "Expecting value")
      "Expecting value" rfl,
    decision_failure_taxonomy.2.2.2 "{}" (fun _ => .ok []) [] rfl⟩

/-! ## C2: recovery of a fenced JSON object

A canonical JSON rendering of the value universe; the claim's scenario
text is leading prose, a fenced block around a rendered object, and
trailing prose. -/

def escChar (c : Char) : List Char :=
  if c == '"' then ['\\', '"']
  else if c == '\\' then ['\\', '\\']
  else if c == '\n' then ['\\', 'n']
  else [c]

def escapeJStr (s : String) : String :=
  ⟨s.data.foldr (fun c acc => escChar c ++ acc) []⟩

def quoteJStr (s : String) : String := "\"" ++ escapeJStr s ++ "\""

mutual

def renderJVal : JVal → String
  | .null => "null"
  | .str s => quoteJStr s
  | .int n => toString n
  | .bool b => cond b "true" "false"
  | .arr xs => "[" ++ renderJArr xs ++ "]"
  | .obj fs => "\x7b" ++ renderJObj fs ++ "\x7d"

def renderJArr : List JVal → String
  | [] => ""
  | [x] => renderJVal x
  | x :: xs => renderJVal x ++ "," ++ renderJArr xs

def renderJObj : List (String × JVal) → String
  | [] => ""
  | [(k, v)] => quoteJStr k ++ ":" ++ renderJVal v
  | (k, v) :: fs => quoteJStr k ++ ":" ++ renderJVal v ++ "," ++ renderJObj fs

end

theorem string_data_append (a b : String) : (a ++ b).data = a.data ++ b.data := rfl

/-- A rendered object is `{`, a middle, `}`. -/
theorem renderObj_data (fs : List (String × JVal)) :
    (renderJVal (.obj fs)).data = '{' :: ((renderJObj fs).data ++ ['}']) := by
  show (("\x7b" ++ renderJObj fs) ++ "\x7d").data = _
  rw [string_data_append, string_data_append]
  rfl

/-- The claim's response shape: leading prose, a fenced code block
containing a rendered JSON object, trailing prose. -/
def fencedResponse (leading : String) (fs : List (String × JVal))
    (trailing : String) : String :=
  leading ++ "```json\n" ++ renderJVal (.obj fs) ++ "\n```" ++ trailing

/-! List surgery lemmas for the recovery pipeline. -/

theorem dropWhile_append_first_false {p : Char → Bool} (P Q : List Char)
    (c : Char) (hc : p c = false) :
    (P ++ c :: Q).dropWhile p = P.dropWhile p ++ c :: Q := by
  induction P with
  | nil => simp [List.dropWhile_cons, hc]
  | cons a as ih =>
    by_cases ha : p a = true
    · simp [List.dropWhile_cons, ha, ih]
    · simp [List.dropWhile_cons, Bool.of_not_eq_true ha]

theorem dropWhile_append_of_all {p : Char → Bool} (A B : List Char)
    (h : ∀ a ∈ A, p a = true) :
    (A ++ B).dropWhile p = B.dropWhile p := by
  induction A with
  | nil => rfl
  | cons a as ih =>
    simp only [List.cons_append, List.dropWhile_cons, h a (by simp)]
    exact ih (fun x hx => h x (by simp [hx]))

def trimLeftL (l : List Char) : List Char := l.dropWhile Char.isWhitespace

def trimRightL (l : List Char) : List Char :=
  (l.reverse.dropWhile Char.isWhitespace).reverse

theorem trimBoth_eq (l : List Char) : trimBothL l = trimRightL (trimLeftL l) := rfl

theorem trimLeft_append (P Q : List Char) (x : Char)
    (hx : x.isWhitespace = false) :
    trimLeftL (P ++ x :: Q) = trimLeftL P ++ x :: Q :=
  dropWhile_append_first_false P Q x hx

theorem trimRight_append (B S : List Char) (y : Char)
    (hy : y.isWhitespace = false) :
    trimRightL (B ++ y :: S) = B ++ y :: trimRightL S := by
  unfold trimRightL
  have e : (B ++ y :: S).reverse = S.reverse ++ y :: B.reverse := by
    simp
  rw [e, dropWhile_append_first_false _ _ y hy]
  simp

/-- Trimming a string with a non-whitespace-delimited core trims only
the two prose sides. -/
theorem trimBoth_core (P M S : List Char) (x y : Char)
    (hx : x.isWhitespace = false) (hy : y.isWhitespace = false) :
    trimBothL (P ++ (x :: (M ++ [y])) ++ S) =
      trimLeftL P ++ (x :: (M ++ [y])) ++ trimRightL S := by
  rw [trimBoth_eq]
  have e1 : (P ++ (x :: (M ++ [y]))) ++ S = P ++ x :: (M ++ y :: S) := by simp
  rw [e1, trimLeft_append P _ x hx]
  have e2 : trimLeftL P ++ x :: (M ++ y :: S) =
      (trimLeftL P ++ x :: M) ++ y :: S := by simp
  rw [e2, trimRight_append _ _ y hy]
  simp

theorem mem_trimLeftL {c : Char} {l : List Char} (h : c ∈ trimLeftL l) :
    c ∈ l := (List.dropWhile_sublist _).mem h

theorem mem_trimRightL {c : Char} {l : List Char} (h : c ∈ trimRightL l) :
    c ∈ l := by
  unfold trimRightL at h
  rw [List.mem_reverse] at h
  exact List.mem_reverse.mp ((List.dropWhile_sublist _).mem h)

theorem cutToFirstBrace_spec (P S : List Char)
    (hP : ∀ c ∈ P, (c == '{') = false) :
    cutToFirstBrace (P ++ '{' :: S) = '{' :: S := by
  cases P with
  | nil => simp [cutToFirstBrace]
  | cons a as =>
    have ha : (a == '{') = false := hP a (by simp)
    have hhead : ¬ ((a :: as ++ '{' :: S).head? = some '{') := by
      simp only [List.cons_append, List.head?_cons, Option.some.injEq]
      intro hc
      rw [hc] at ha
      simp at ha
    unfold cutToFirstBrace
    rw [if_neg hhead]
    have hall : ∀ c ∈ a :: as, (fun c => !(c == '{')) c = true := by
      intro c hcmem
      rcases List.mem_cons.mp hcmem with h | h
      · simp [h ▸ ha]
      · simp [hP c (by simp [h])]
    have hdw : ((a :: as) ++ '{' :: S).dropWhile (fun c => !(c == '{')) =
        '{' :: S := by
      rw [dropWhile_append_of_all _ _ hall]
      simp [List.dropWhile_cons]
    simp only [List.cons_append] at hdw ⊢
    rw [hdw]

theorem cutToLastBrace_spec (A S : List Char)
    (hS : ∀ c ∈ S, (c == '}') = false) :
    cutToLastBrace ((A ++ ['}']) ++ S) = A ++ ['}'] := by
  rcases List.eq_nil_or_concat S with rfl | ⟨S0, c, rfl⟩
  · simp [cutToLastBrace, List.getLast?_concat]
  · simp only [List.concat_eq_append] at hS ⊢
    have hc : (c == '}') = false := hS c (by simp)
    have hlast : ¬ (((A ++ ['}']) ++ (S0 ++ [c])).getLast? = some '}') := by
      rw [show (A ++ ['}']) ++ (S0 ++ [c]) = ((A ++ ['}']) ++ S0) ++ [c] by simp,
        List.getLast?_concat]
      simp only [Option.some.injEq]
      intro hcc
      rw [hcc] at hc
      simp at hc
    unfold cutToLastBrace
    rw [if_neg hlast]
    have hall : ∀ x ∈ (S0 ++ [c]).reverse, (fun c => !(c == '}')) x = true := by
      intro x hx
      rw [List.mem_reverse] at hx
      simp [hS x hx]
    have e : ((A ++ ['}']) ++ (S0 ++ [c])).reverse =
        (S0 ++ [c]).reverse ++ '}' :: A.reverse := by simp
    rw [e, dropWhile_append_of_all _ _ hall]
    simp [List.dropWhile_cons]

/-- The two brace cuts isolate a brace-delimited core from brace-free
surroundings. -/
theorem recover_isolates (P M S : List Char)
    (hP : ∀ c ∈ P, (c == '{') = false)
    (hS : ∀ c ∈ S, (c == '}') = false) :
    cutToLastBrace (cutToFirstBrace (P ++ ('{' :: (M ++ ['}'])) ++ S)) =
      '{' :: (M ++ ['}']) := by
  have e : (P ++ ('{' :: (M ++ ['}']))) ++ S = P ++ '{' :: (M ++ '}' :: S) := by
    simp
  rw [e]
  have e2 : (M ++ '}' :: S : List Char) = (M ++ ['}']) ++ S := by simp
  rw [show ('{' :: (M ++ '}' :: S) : List Char) = '{' :: ((M ++ ['}']) ++ S) by
    rw [e2]]
  rw [cutToFirstBrace_spec P _ hP]
  rw [show ('{' :: ((M ++ ['}']) ++ S) : List Char) =
    (('{' :: M) ++ ['}']) ++ S by simp]
  rw [cutToLastBrace_spec ('{' :: M) S hS]
  simp

theorem mem_fenceOpener_no_brace {c : Char} (h : c ∈ fenceOpener) :
    (c == '{') = false := by
  simp only [fenceOpener, List.mem_cons, List.not_mem_nil, or_false] at h
  rcases h with rfl | rfl | rfl | rfl | rfl | rfl | rfl <;> rfl

theorem mem_fenceCloser_no_rbrace {c : Char} (h : c ∈ fenceCloser) :
    (c == '}') = false := by
  simp only [fenceCloser, List.mem_cons, List.not_mem_nil, or_false] at h
  rcases h with rfl | rfl | rfl <;> rfl

/-- The recovery preprocessing isolates exactly the rendered object out
of a fenced response whose leading prose contains no `{` and whose
trailing prose contains no `}` — through every fence-stripping path. -/
theorem recover_fenced (leading trailing : String) (fs : List (String × JVal))
    (hL : ∀ c ∈ leading.data, (c == '{') = false)
    (hT : ∀ c ∈ trailing.data, (c == '}') = false) :
    recoverResponseText (fencedResponse leading fs trailing) =
      renderJVal (.obj fs) := by
  obtain ⟨M, hJ⟩ : ∃ M, (renderJVal (JVal.obj fs)).data = '{' :: (M ++ ['}']) :=
    ⟨(renderJObj fs).data, renderObj_data fs⟩
  have hfo : ("```json\n" : String).data = fenceOpener ++ ['\n'] := rfl
  have hfc : ("\n```" : String).data = '\n' :: fenceCloser := rfl
  have hdata : (fencedResponse leading fs trailing).data =
      (leading.data ++ (fenceOpener ++ ['\n'])) ++ ('{' :: (M ++ ['}'])) ++
        (('\n' :: fenceCloser) ++ trailing.data) := by
    show ((((leading ++ "```json\n") ++ renderJVal (JVal.obj fs)) ++ "\n```")
        ++ trailing).data = _
    simp only [string_data_append]
    rw [hJ]
    simp [fenceOpener, fenceCloser, List.append_assoc]
  have hP0 : ∀ c ∈ leading.data ++ (fenceOpener ++ ['\n']),
      (c == '{') = false := by
    intro c hc
    rcases List.mem_append.mp hc with h | h
    · exact hL c h
    · rcases List.mem_append.mp h with h | h
      · exact mem_fenceOpener_no_brace h
      · rcases List.mem_singleton.mp h with rfl
        rfl
  have hS0 : ∀ c ∈ ('\n' :: fenceCloser) ++ trailing.data,
      (c == '}') = false := by
    intro c hc
    rcases List.mem_append.mp hc with h | h
    · rcases List.mem_cons.mp h with rfl | h
      · rfl
      · exact mem_fenceCloser_no_rbrace h
    · exact hT c h
  have goalList : cutToLastBrace (cutToFirstBrace (stripFence (trimBothL
      (fencedResponse leading fs trailing).data))) = '{' :: (M ++ ['}']) := by
    rw [hdata, trimBoth_core _ _ _ '{' '}' (by decide) (by decide)]
    have hP1 : ∀ c ∈ trimLeftL (leading.data ++ (fenceOpener ++ ['\n'])),
        (c == '{') = false := fun c hc => hP0 c (mem_trimLeftL hc)
    have hS1 : ∀ c ∈ trimRightL (('\n' :: fenceCloser) ++ trailing.data),
        (c == '}') = false := fun c hc => hS0 c (mem_trimRightL hc)
    set P1 := trimLeftL (leading.data ++ (fenceOpener ++ ['\n'])) with hP1def
    set S1 := trimRightL (('\n' :: fenceCloser) ++ trailing.data) with hS1def
    unfold stripFence
    by_cases hf : fenceOpener.isPrefixOf (P1 ++ ('{' :: (M ++ ['}'])) ++ S1) = true
    case neg =>
      rw [if_neg hf]
      exact recover_isolates P1 M S1 hP1 hS1
    case pos =>
      rw [if_pos hf]
      obtain ⟨R, hR⟩ := List.isPrefixOf_iff_prefix.mp hf
      have h7 : 7 ≤ P1.length := by
        have hbig : fenceOpener ++ R = P1 ++ ('{' :: ((M ++ ['}']) ++ S1)) := by
          rw [hR]
          simp [List.append_assoc]
        rcases List.append_eq_append_iff.mp hbig with ⟨w, hw1, _⟩ | ⟨w, hw1, hw2⟩
        · rw [hw1]
          simp [fenceOpener]
        · cases w with
          | nil =>
            rw [List.append_nil] at hw1
            rw [← hw1]
            decide
          | cons z zs =>
            exfalso
            have hz : z = '{' := by
              have h := congrArg List.head? hw2
              simp at h
              exact h.symm
            have hzmem : z ∈ fenceOpener := by
              rw [hw1]
              simp
            rw [hz] at hzmem
            have := mem_fenceOpener_no_brace hzmem
            simp at this
      have hdrop : (P1 ++ ('{' :: (M ++ ['}'])) ++ S1).drop 6 =
          P1.drop 6 ++ ('{' :: (M ++ ['}'])) ++ S1 := by
        rw [List.append_assoc, List.drop_append_of_le_length (by omega),
          ← List.append_assoc]
      rw [hdrop, trimBoth_core _ _ _ '{' '}' (by decide) (by decide)]
      have hP3 : ∀ c ∈ trimLeftL (P1.drop 6), (c == '{') = false :=
        fun c hc => hP1 c ((List.drop_sublist 6 P1).mem (mem_trimLeftL hc))
      have hS2 : ∀ c ∈ trimRightL S1, (c == '}') = false :=
        fun c hc => hS1 c (mem_trimRightL hc)
      set P3 := trimLeftL (P1.drop 6) with hP3def
      set S2 := trimRightL S1 with hS2def
      unfold stripCloser
      by_cases hcl : fenceCloser.isSuffixOf
          (P3 ++ ('{' :: (M ++ ['}'])) ++ S2) = true
      case neg =>
        rw [if_neg hcl]
        exact recover_isolates P3 M S2 hP3 hS2
      case pos =>
        rw [if_pos hcl]
        obtain ⟨W, hW⟩ := List.isSuffixOf_iff_suffix.mp hcl
        have hu : (P3 ++ ('{' :: M)) ++ ('}' :: S2) = W ++ fenceCloser := by
          rw [hW]
          simp [List.append_assoc]
        rcases List.append_eq_append_iff.mp hu with ⟨w, _, hw2⟩ | ⟨w, _, hw2⟩
        · cases w with
          | nil =>
            exfalso
            have h := congrArg List.head? hw2
            simp [fenceCloser] at h
          | cons z zs =>
            have hS2e : S2 = zs ++ fenceCloser := by
              have h := congrArg List.tail hw2
              simp at h
              exact h
            have htake : (P3 ++ ('{' :: (M ++ ['}'])) ++ S2).take
                ((P3 ++ ('{' :: (M ++ ['}'])) ++ S2).length - 3) =
                P3 ++ ('{' :: (M ++ ['}'])) ++ zs := by
              rw [hS2e]
              rw [show (P3 ++ ('{' :: (M ++ ['}'])) ++ (zs ++ fenceCloser)) =
                ((P3 ++ ('{' :: (M ++ ['}'])) ++ zs) ++ fenceCloser) by
                  simp [List.append_assoc]]
              rw [show ((P3 ++ ('{' :: (M ++ ['}'])) ++ zs) ++
                  fenceCloser).length - 3 =
                  (P3 ++ ('{' :: (M ++ ['}'])) ++ zs).length by
                simp [fenceCloser]
                omega]
              exact List.take_left _ _
            rw [htake, trimBoth_core _ _ _ '{' '}' (by decide) (by decide)]
            refine recover_isolates _ M _
              (fun c hc => hP3 c (mem_trimLeftL hc)) ?_
            intro c hc
            refine hS2 c ?_
            rw [hS2e]
            exact List.mem_append.mpr (Or.inl (mem_trimRightL hc))
        · exfalso
          have hmem : ('}' : Char) ∈ fenceCloser := by
            rw [hw2]
            simp
          have := mem_fenceCloser_no_rbrace hmem
          simp at this
  have : (⟨cutToLastBrace (cutToFirstBrace (stripFence (trimBothL
      (fencedResponse leading fs trailing).data)))⟩ : String) =
      ⟨(renderJVal (JVal.obj fs)).data⟩ :=
    congrArg String.mk (goalList.trans hJ.symm)
  exact this

/-- C2 (amended).  For a response of leading prose, a fenced code block
holding a rendered JSON object, and trailing prose — with the leading
prose free of `{` and the trailing prose free of `}` — the recovery
algorithm hands `json.loads` exactly the object text, and the
resulting plan's five fields are the object's values, with `tool_name`
defaulting to the `"final_answer"` sentinel and `memory_actions` to
the empty sequence when absent. -/
theorem response_recovery_plan (leading trailing : String)
    (fs : List (String × JVal))
    (js : String → Except String (List (String × JVal)))
    (hL : ∀ c ∈ leading.data, (c == '{') = false)
    (hT : ∀ c ∈ trailing.data, (c == '}') = false)
    (hjs : js (renderJVal (.obj fs)) = .ok fs) :
    execute_plan_with_memory true (.ok (fencedResponse leading fs trailing)) js
        = planOfJDict fs
    ∧ recoverResponseText (fencedResponse leading fs trailing) =
        renderJVal (.obj fs)
    ∧ (∀ v, alGet fs "thought" = some v → (planOfJDict fs).thought = v)
    ∧ (∀ v, alGet fs "tool_name" = some v → (planOfJDict fs).tool_name = v)
    ∧ (∀ v, alGet fs "tool_input" = some v → (planOfJDict fs).tool_input = v)
    ∧ (∀ v, alGet fs "speak" = some v → (planOfJDict fs).speak = v)
    ∧ (∀ v, alGet fs "memory_actions" = some v →
        (planOfJDict fs).memory_actions = v)
    ∧ (alGet fs "tool_name" = none →
        (planOfJDict fs).tool_name = .str "final_answer")
    ∧ (alGet fs "memory_actions" = none →
        (planOfJDict fs).memory_actions = .arr []) := by
  have hrec := recover_fenced leading trailing fs hL hT
  refine ⟨?_, hrec, ?_, ?_, ?_, ?_, ?_, ?_, ?_⟩
  · simp [execute_plan_with_memory, hrec, hjs]
  · intro v hv; simp [planOfJDict, hv]
  · intro v hv; simp [planOfJDict, hv]
  · intro v hv; simp [planOfJDict, hv]
  · intro v hv; simp [planOfJDict, hv]
  · intro v hv; simp [planOfJDict, hv]
  · intro hv; simp [planOfJDict, hv]
  · intro hv; simp [planOfJDict, hv]

/-- A concrete well-formed plan object. -/
def cexObj : List (String × JVal) :=
  [("thought", .str "t"), ("tool_name", .str "final_answer"),
   ("tool_input", .obj []), ("speak", .str "the object speak"),
   ("memory_actions", .arr [])]

/-- `json.loads` restricted to the two inputs the counterexample and
witness feed it: the canonical object text parses to the object, and
any other fed string (in particular the brace-polluted recovery result
`"{x} ```json\n{...}"`, not valid JSON) raises `JSONDecodeError`. -/
def cexParse : String → Except String (List (String × JVal)) :=
  fun s => if s = renderJVal (.obj cexObj) then .ok cexObj
    else .error "Expecting value: line 1 column 1 (char 0)"

/-- Counterexample for C2 as stated: with leading prose `"{x} "`
(prose containing a brace), the first-brace cut latches onto the prose
brace, the recovered text is not the object text, parsing fails, and
the returned plan's `speak` is the fixed apology instead of the
object's `speak` value. -/
theorem response_recovery_cex :
    recoverResponseText (fencedResponse "{x} " cexObj "") ≠
        renderJVal (.obj cexObj)
    ∧ (execute_plan_with_memory true
        (.ok (fencedResponse "{x} " cexObj "")) cexParse).speak =
        .str "I'm sorry, I had trouble understanding the response format."
    ∧ (planOfJDict cexObj).speak = .str "the object speak" := by
  refine ⟨?_, ?_, rfl⟩
  · intro h
    have : (recoverResponseText (fencedResponse "{x} " cexObj "")).data =
        (renderJVal (.obj cexObj)).data := congrArg String.data h
    revert this
    decide
  · have hne : (recoverResponseText (fencedResponse "{x} " cexObj "") =
        renderJVal (.obj cexObj)) = False := by
      simp only [eq_iff_iff, iff_false]
      intro h
      have : (recoverResponseText (fencedResponse "{x} " cexObj "")).data =
          (renderJVal (.obj cexObj)).data := congrArg String.data h
      revert this
      decide
    simp [execute_plan_with_memory, cexParse, hne, parseFailPlan]

/-- Witness for C2 (amended) at concrete prose and object. -/
theorem response_recovery_plan_witness :
    execute_plan_with_memory true
        (.ok (fencedResponse "Sure! " cexObj " Done.")) cexParse =
      planOfJDict cexObj :=
  (response_recovery_plan "Sure! " " Done." cexObj cexParse
    (by decide) (by decide) (by simp [cexParse])).1

/-! ## Tool process client (`module/mcp_tool_wrappers.py`)

`BaseMCPToolWrapper.execute` (lines 45-105) with its transport effects
as oracle parameters: `procOk` models the process handle and both pipes
being present (line 47); `writeRes` the `stdin.write`+`flush` in the
executor (`.error e` when it raised `e`); `readRes` the `readline`
(`.ok none` when the stdout handle was torn down mid-call, `.error e`
when the read raised); `jsonLoads` Python's `json.loads` on the
response line.  The JSON-RPC envelope construction (lines 53-60) only
feeds the write and is not otherwise observable. -/
def BaseMCPToolWrapper.execute (name : String) (procOk : Bool)
    (writeRes : Except String Unit)
    (readRes : Except String (Option String))
    (jsonLoads : String → Except String Dict) : Dict :=
  if !procOk then
    [("status", .str "error"), ("message", .str "MCP server process not available.")]
  else
    match writeRes with
    | .error e => [("status", .str "error"), ("tool_name", .str name),
        ("message", .str e)]
    | .ok _ =>
      match readRes with
      | .error e => [("status", .str "error"), ("tool_name", .str name),
          ("message", .str e)]
      | .ok none => [("status", .str "error"),
          ("message", .str "Failed to read response from MCP server.")]
      | .ok (some line) =>
        if (pyStrip line).isEmpty then
          [("status", .str "error"),
           ("message", .str "Empty response from MCP server.")]
        else
          match jsonLoads line with
          | .error e => [("status", .str "error"), ("tool_name", .str name),
              ("message", .str e)]
          | .ok d =>
            if (alGet d "result").isSome then
              [("status", .str "success"), ("tool_name", .str name),
               ("output", (alGet d "result").getD .null)]
            else if (alGet d "error").isSome then
              [("status", .str "error"), ("tool_name", .str name),
               ("message", (alGet d "error").getD .null)]
            else
              [("status", .str "error"),
               ("message", .str "Unknown response format from MCP server.")]

/-! ## C5: the tool wrapper's error containment -/

/-- C5.  `execute` always returns a result dict whose `status` is
`"success"` or `"error"` — the embedding is a total function on every
oracle behaviour, so no transport fault propagates as an exception.
With the process or its pipes unavailable it answers the fixed error
result whatever the transport would have done (the call is never
attempted); an empty or whitespace line, a `json.loads` failure
(carrying the parse error as the message), a `"result"` response and an
`"error"`-only response each map to their respective results. -/
theorem tool_wrapper_execute_spec (name : String) :
    (∀ (procOk : Bool) (wr : Except String Unit)
        (rr : Except String (Option String))
        (js : String → Except String Dict),
      alGet (BaseMCPToolWrapper.execute name procOk wr rr js) "status" =
          some (.str "success")
        ∨ alGet (BaseMCPToolWrapper.execute name procOk wr rr js) "status" =
          some (.str "error"))
    ∧ (∀ wr rr js, BaseMCPToolWrapper.execute name false wr rr js =
        [("status", .str "error"),
         ("message", .str "MCP server process not available.")])
    ∧ (∀ (line : String) (js : String → Except String Dict),
        (pyStrip line).isEmpty = true →
        BaseMCPToolWrapper.execute name true (.ok ()) (.ok (some line)) js =
          [("status", .str "error"),
           ("message", .str "Empty response from MCP server.")])
    ∧ (∀ (line e : String) (js : String → Except String Dict),
        (pyStrip line).isEmpty = false → js line = .error e →
        BaseMCPToolWrapper.execute name true (.ok ()) (.ok (some line)) js =
          [("status", .str "error"), ("tool_name", .str name),
           ("message", .str e)])
    ∧ (∀ (line : String) (js : String → Except String Dict) (d : Dict) (v : JVal),
        (pyStrip line).isEmpty = false → js line = .ok d →
        alGet d "result" = some v →
        BaseMCPToolWrapper.execute name true (.ok ()) (.ok (some line)) js =
          [("status", .str "success"), ("tool_name", .str name), ("output", v)])
    ∧ (∀ (line : String) (js : String → Except String Dict) (d : Dict) (v : JVal),
        (pyStrip line).isEmpty = false → js line = .ok d →
        alGet d "result" = none → alGet d "error" = some v →
        BaseMCPToolWrapper.execute name true (.ok ()) (.ok (some line)) js =
          [("status", .str "error"), ("tool_name", .str name),
           ("message", v)]) := by
  refine ⟨?_, fun wr rr js => rfl, ?_, ?_, ?_, ?_⟩
  · intro procOk wr rr js
    unfold BaseMCPToolWrapper.execute
    repeat' split
    all_goals first
      | exact Or.inl rfl
      | exact Or.inr rfl
  · intro line js hline
    simp [BaseMCPToolWrapper.execute, hline]
  · intro line e js hline hjs
    simp [BaseMCPToolWrapper.execute, hline, hjs]
  · intro line js d v hline hjs hres
    simp [BaseMCPToolWrapper.execute, hline, hjs, hres]
  · intro line js d v hline hjs hres herr
    simp [BaseMCPToolWrapper.execute, hline, hjs, hres, herr]

/-- Witness for C5 at concrete transport behaviours. -/
theorem tool_wrapper_execute_spec_witness :
    BaseMCPToolWrapper.execute "add" true (.ok ())
        (.ok (some "RESULT_LINE"))
        (fun _ => .ok [("result", .int 5), ("id", .str "x")]) =
      [("status", .str "success"), ("tool_name", .str "add"),
       ("output", .int 5)]
    ∧ BaseMCPToolWrapper.execute "add" true (.ok ()) (.ok (some "  "))
        (fun _ => .error "unused") =
      [("status", .str "error"),
       ("message", .str "Empty response from MCP server.")]
    ∧ BaseMCPToolWrapper.execute "add" true (.ok ()) (.ok (some "oops"))
        (fun _ => .error "Expecting value") =
      [("status", .str "error"), ("tool_name", .str "add"),
       ("message", .str "Expecting value")] :=
  ⟨(tool_wrapper_execute_spec "add").2.2.2.2.1
      "RESULT_LINE" _ [("result", .int 5), ("id", .str "x")]
      (.int 5) (by decide) rfl rfl,
    (tool_wrapper_execute_spec "add").2.2.1 "  " _ (by decide),
    (tool_wrapper_execute_spec "add").2.2.2.1 "oops" "Expecting value" _
      (by decide) rfl⟩

/-! ## Orchestrator (`agent.py`, `ConversationalAgent.process_user_query`)

The two decision calls and the tool call are the agent's external
effects; they enter the embedding as parameters: `plan1` is the initial
decision result, `toolExec` the chosen tool's `execute()` (or the
exception it raised), `plan2` the re-evaluation decision result.  The
perception output and the assembled memory context only feed those
calls and cannot otherwise influence the state, so they are not
modelled. -/

/-- One entry of a plan's `memory_actions` (lines 172-189). -/
inductive MemAction where
  | store_fact (key : String) (value : JVal)
  | set_current_scheme (scheme_id : Option String)
  | update_current_scheme_data (data : Option Dict)
  | unknown (action : Option String)

/-- A decision result as consumed by the agent: well-typed plan fields
(the shapes produced by the engine's prompt contract and exercised by
the repository's tests). -/
structure AgentPlan where
  thought : String
  tool_name : String
  tool_input : Dict
  speak : String
  memory_actions : List MemAction

/-- Lines 172-189: apply one memory action; `set_current_scheme` and
`update_current_scheme_data` are skipped on a missing/falsy field, and
an unknown action type is ignored. -/
def applyMemAction (m : Memory) : MemAction → Memory
  | .store_fact k v => m.store_fact k v
  | .set_current_scheme sid =>
      if strTruthy sid then (m.set_current_scheme (sid.getD "")).1 else m
  | .update_current_scheme_data dat =>
      match dat with
      | some dd => if !dd.isEmpty then (m.update_current_scheme_data dd).1 else m
      | none => m
  | .unknown _ => m

def applyMemActions (m : Memory) (acts : List MemAction) : Memory :=
  acts.foldl applyMemAction m

/-- Lines 241-247: the re-evaluation loop applies only `store_fact`
(the other action types are an elided `...` comment in the source). -/
def applyMemActionStoreFactOnly (m : Memory) : MemAction → Memory
  | .store_fact k v => m.store_fact k v
  | _ => m

/-- `ConversationalAgent.start_session` (lines 89-106): clear memory
and append the greeting turn. -/
def start_session (m : Memory) : Memory :=
  m.clear.add_conversation_turn "agent" "What do you want to do today?"
    none none none (some "What do you want to do today?")

def terminationPhrases : List String :=
  ["that is all, thank you.", "bye", "exit", "quit"]

/-- The fixed tool-not-available answer (line 268). -/
def unavailMsg (tool_name : String) : String :=
  "I thought about using a tool called '" ++ tool_name ++
    "', but I don't seem to have it available right now."

/-- Lines 275-283: the final agent turn.  `reeval` is Python's
`'final_thought' in locals()` (true exactly when the
successful-tool re-evaluation branch ran). -/
def finalCommit (m3 : Memory) (plan1 : AgentPlan)
    (tool_output_content : Option String) (answer : String)
    (reeval : Bool) (plan2 : AgentPlan) : String × Memory × Bool :=
  (answer,
   m3.add_conversation_turn "agent"
     (if reeval then plan2.thought else plan1.thought)
     (if plan1.tool_name ≠ "final_answer"
          ∧ ¬(reeval ∧ plan2.tool_name = "final_answer")
        then some plan1.tool_name else none)
     (if plan1.tool_name ≠ "final_answer"
          ∧ ¬(reeval ∧ plan2.tool_name = "final_answer")
        then some plan1.tool_input else none)
     (tool_output_content.map .str)
     (some answer),
   true)

/-- Lines 204-255: the successful-tool re-evaluation. -/
def successPath (m2 : Memory) (plan1 : AgentPlan) (d : Dict)
    (plan2 : AgentPlan) : String × Memory × Bool :=
  finalCommit (plan2.memory_actions.foldl applyMemActionStoreFactOnly m2) plan1
    (some (pyStr (.obj d)))
    (if plan2.tool_name = "final_answer" ∧ plan2.speak ≠ "" then plan2.speak
     else "The tool '" ++ plan1.tool_name ++ "' was used. Result: " ++
       pyStr ((alGet d "output").getD
         (.str "Tool executed successfully but provided no specific output.")))
    true plan2

/-- Lines 196-265: dispatch to a registered tool. -/
def execRegistered (m2 : Memory) (plan1 : AgentPlan)
    (toolExec : Except String Dict) (plan2 : AgentPlan) :
    String × Memory × Bool :=
  match toolExec with
  | .error e =>
      finalCommit m2 plan1 (some ("Error: " ++ e))
        ("Sorry, I encountered an error trying to use the tool: " ++
          plan1.tool_name ++ ". Error: " ++ e) false plan2
  | .ok d =>
      match alGet d "status" with
      | some (JVal.str "success") => successPath m2 plan1 d plan2
      | some (JVal.str "error") =>
          finalCommit m2 plan1 (some (pyStr (.obj d)))
            ((if plan1.speak ≠ "" then plan1.speak
              else "I tried to use the " ++ plan1.tool_name ++
                " tool, but there was an error.") ++ " Error: " ++
              pyStr ((alGet d "message").getD
                (.str "An error occurred with the tool."))) false plan2
      | _ =>
          finalCommit m2 plan1 (some (pyStr (.obj d)))
            ((if plan1.speak ≠ "" then plan1.speak
              else "I used the " ++ plan1.tool_name ++ " tool.") ++
              " Details: " ++ pyStr (.obj d)) false plan2

/-- Lines 191-270: tool-name triage after the memory actions ran. -/
def dispatch (m2 : Memory) (registered : List String) (plan1 : AgentPlan)
    (toolExec : Except String Dict) (plan2 : AgentPlan) :
    String × Memory × Bool :=
  if plan1.tool_name ≠ "" ∧ plan1.tool_name ≠ "final_answer" then
    if plan1.tool_name ∈ registered then execRegistered m2 plan1 toolExec plan2
    else finalCommit m2 plan1 none (unavailMsg plan1.tool_name) false plan2
  else finalCommit m2 plan1 none plan1.speak false plan2

/-- Lines 139-270 after the user turn was appended: termination check,
repeat check, memory actions, dispatch. -/
def processAfterUser (m1 : Memory) (user_query : String)
    (registered : List String) (plan1 : AgentPlan)
    (toolExec : Except String Dict) (plan2 : AgentPlan) :
    String × Memory × Bool :=
  if pyStripLower user_query ∈ terminationPhrases then
    ("That is all, thank you.",
     m1.add_conversation_turn "agent" "Session ended." none none none
       (some "That is all, thank you."), false)
  else if strTruthy (m1.check_for_repeated_question user_query 5) then
    ((m1.check_for_repeated_question user_query 5).getD "",
     m1.add_conversation_turn "agent" "Retrieved from memory." none none none
       (m1.check_for_repeated_question user_query 5), true)
  else
    dispatch (applyMemActions m1 plan1.memory_actions) registered plan1
      toolExec plan2

/-- `ConversationalAgent.process_user_query` (lines 123-286), returning
the answer, the memory state, and the session-active flag. -/
def process_user_query (m : Memory) (is_session_active : Bool)
    (user_query : String) (registered : List String) (plan1 : AgentPlan)
    (toolExec : Except String Dict) (plan2 : AgentPlan) :
    String × Memory × Bool :=
  processAfterUser
    ((if is_session_active then m else start_session m).add_conversation_turn
      "user" user_query)
    user_query registered plan1 toolExec plan2

/-! ## C3: an unregistered tool name -/

/-- C3 (amended).  With an active session, a non-terminating query
that is not a repeat, and an initial plan naming a tool that is not
registered, `process_user_query` answers the fixed "tool not
available" message; tool execution and re-evaluation are skipped (the
result is the same for every tool behaviour and every second plan);
and the final agent turn records `tool_name` as the unavailable tool's
name — not `None` as claimed. -/
theorem unregistered_tool_spec (m : Memory) (q : String)
    (registered : List String) (plan1 : AgentPlan)
    (hq : pyStripLower q ∉ terminationPhrases)
    (hrep : strTruthy
      ((m.add_conversation_turn "user" q).check_for_repeated_question q 5)
        = false)
    (htn : plan1.tool_name ∉ registered)
    (h1 : plan1.tool_name ≠ "final_answer")
    (h2 : plan1.tool_name ≠ "") :
    ∀ (toolExec : Except String Dict) (plan2 : AgentPlan),
      process_user_query m true q registered plan1 toolExec plan2 =
        (unavailMsg plan1.tool_name,
         (applyMemActions (m.add_conversation_turn "user" q)
             plan1.memory_actions).add_conversation_turn "agent" plan1.thought
           (some plan1.tool_name) (some plan1.tool_input) none
           (some (unavailMsg plan1.tool_name)),
         true)
      ∧ ∃ t : Turn,
          (process_user_query m true q registered plan1 toolExec
              plan2).2.1.conversation_history =
            (applyMemActions (m.add_conversation_turn "user" q)
              plan1.memory_actions).conversation_history ++ [t]
          ∧ t.tool_name = some plan1.tool_name
          ∧ t.tool_name ≠ none := by
  intro toolExec plan2
  have hne : unavailMsg plan1.tool_name ≠ "" := by
    intro hc
    have hd := congrArg String.data hc
    simp only [unavailMsg, string_data_append] at hd
    simp at hd
  have hmsg : strTruthy (some (unavailMsg plan1.tool_name)) = true := by
    simp [strTruthy, hne]
  have htn' : strTruthy (some plan1.tool_name) = true := by
    simp [strTruthy, h2]
  have heq : process_user_query m true q registered plan1 toolExec plan2 =
      (unavailMsg plan1.tool_name,
       (applyMemActions (m.add_conversation_turn "user" q)
           plan1.memory_actions).add_conversation_turn "agent" plan1.thought
         (some plan1.tool_name) (some plan1.tool_input) none
         (some (unavailMsg plan1.tool_name)),
       true) := by
    simp [process_user_query, processAfterUser, dispatch, finalCommit,
      hq, hrep, htn, h1, h2]
  refine ⟨heq, ?_⟩
  refine ⟨{ role := "agent", content := plan1.thought,
            tool_name := some plan1.tool_name,
            tool_input := some plan1.tool_input,
            tool_output := some .null,
            final_answer := some (unavailMsg plan1.tool_name) },
    ?_, rfl, by simp⟩
  rw [heq]
  simp [Memory.add_conversation_turn, htn', hmsg]

/-- The concrete scenario of the claim: a fresh active session, the
query `"add 2 and 3"`, and an initial plan naming the unregistered
tool `"sum"` with input `{a:2, b:3}`, while only `"add"` is
registered. -/
def cexPlanSum : AgentPlan :=
  { thought := "t", tool_name := "sum",
    tool_input := [("a", .int 2), ("b", .int 3)],
    speak := "ok", memory_actions := [] }

/-- Counterexample for C3 as stated: in the claim's own scenario the
final agent turn records `tool_name="sum"`, not `None` — line 279 of
`agent.py` passes `llm_tool_name` whenever it differs from the
sentinel and no re-evaluation ran, and the unregistered-tool branch
does not reset it. -/
theorem unregistered_tool_cex :
    (process_user_query (start_session Memory.init) true "add 2 and 3"
        ["add"] cexPlanSum (.error "unused")
        { thought := "", tool_name := "final_answer", tool_input := [],
          speak := "", memory_actions := [] }).1 = unavailMsg "sum"
    ∧ (process_user_query (start_session Memory.init) true "add 2 and 3"
        ["add"] cexPlanSum (.error "unused")
        { thought := "", tool_name := "final_answer", tool_input := [],
          speak := "", memory_actions := [] }).2.1.conversation_history.getLast?
      = some { role := "agent", content := "t",
               tool_name := some "sum",
               tool_input := some [("a", .int 2), ("b", .int 3)],
               tool_output := some .null,
               final_answer := some (unavailMsg "sum") }
    ∧ ¬ ((some "sum" : Option String) = none) := by
  refine ⟨rfl, rfl, by simp⟩

/-- Witness for C3 (amended) at the same concrete scenario. -/
theorem unregistered_tool_spec_witness :
    (process_user_query (start_session Memory.init) true "add 2 and 3"
        ["add"] cexPlanSum (.error "unused")
        { thought := "", tool_name := "final_answer", tool_input := [],
          speak := "", memory_actions := [] }).1 = unavailMsg "sum"
    ∧ ∃ t : Turn,
        (process_user_query (start_session Memory.init) true "add 2 and 3"
            ["add"] cexPlanSum (.error "unused")
            { thought := "", tool_name := "final_answer", tool_input := [],
              speak := "", memory_actions := [] }).2.1.conversation_history =
          (applyMemActions ((start_session Memory.init).add_conversation_turn
            "user" "add 2 and 3") cexPlanSum.memory_actions).conversation_history
            ++ [t]
        ∧ t.tool_name = some "sum" := by
  have h := unregistered_tool_spec (start_session Memory.init) "add 2 and 3"
    ["add"] cexPlanSum (by decide) (by decide) (by decide) (by decide)
    (by decide) (.error "unused")
    { thought := "", tool_name := "final_answer", tool_input := [],
      speak := "", memory_actions := [] }
  refine ⟨by rw [h.1]; rfl, ?_⟩
  obtain ⟨t, ht1, ht2, _⟩ := h.2
  exact ⟨t, ht1, ht2⟩

end Capstone

